import Mathlib

/-!
Shallow embedding of `src/src/lib.rs` (crate `shproto-rs`).

Bytes are `Nat`s kept below 256 and the 16-bit CRC is a `Nat` kept below
65536; every arithmetic step of the source (`u8`/`u16` operations) is
reproduced with the corresponding `Nat` operation, with explicit `% 256`
masks exactly where the `u8` conversions sit in the source.

Rust's `Result<(), ShprotoError>` methods that mutate `self` are embedded
as functions returning the mutated value together with an optional error
(`ShprotoPacket × Option ShprotoError`), so the partially mutated state a
caller retains after an `Err` is preserved.  Functions whose failures are
`.unwrap()` panics in the source (`ShprotoPacket::new`, `complete`) return
`Option`, with `none` standing for the panic.
-/

namespace Shproto

/-- `ControlByte::START` (0xFE). -/
def START : Nat := 0xFE

/-- `ControlByte::ESCAPE` (0xFD). -/
def ESCAPE : Nat := 0xFD

/-- `ControlByte::STOP` (0xA5). -/
def STOP : Nat := 0xA5

/-- `ShprotoError`: the only variant is `PushFailed`. -/
inductive ShprotoError where
  | PushFailed
deriving DecidableEq

/-- `ShprotoPacket<N>`: the const generic capacity `N` of the
`heapless::Vec` is carried as a field. -/
structure ShprotoPacket where
  capacity : Nat
  data : List Nat
  crc : Nat
  completed : Bool
  valid : Bool
deriving DecidableEq

/-- `heapless::Vec::push`: fails exactly when the vector is full. -/
def push (p : ShprotoPacket) (b : Nat) : Option ShprotoPacket :=
  if p.data.length < p.capacity then some { p with data := p.data ++ [b] } else none

/-- `ShprotoPacket::new()`: seeds `crc = 0xFFFF`, clears the flags and
pushes the preamble `0xFF, 0xFE` with `.unwrap()`; `none` models the panic
of those unwraps when `N < 2`. -/
def newPacket (N : Nat) : Option ShprotoPacket :=
  match push ⟨N, [], 0xFFFF, false, false⟩ 0xFF with
  | none => none
  | some p =>
    match push p 0xFE with
    | none => none
    | some p => some p

/-- The packet `ShprotoPacket::new()` returns when the preamble pushes
succeed (capacity at least 2). -/
def mkPacket (N : Nat) : ShprotoPacket :=
  ⟨N, [0xFF, 0xFE], 0xFFFF, false, false⟩

/-- One iteration of the `for _ in 0..8` loop in `ShprotoPacket::crc16`. -/
def crcRound (c : Nat) : Nat :=
  if c % 2 = 1 then c / 2 ^^^ 0xA001 else c / 2

/-- The eight loop iterations of `ShprotoPacket::crc16`. -/
def crc8 (c : Nat) : Nat :=
  crcRound (crcRound (crcRound (crcRound (crcRound (crcRound (crcRound (crcRound c)))))))

/-- `ShprotoPacket::crc16`: xor the byte in, then run eight rounds. -/
def crc16Step (crc byte : Nat) : Nat :=
  crc8 (crc ^^^ byte)

/-- The escape test in `ShprotoPacket::add_byte`: the byte matches
`START | ESCAPE | STOP`. -/
def needEscape (b : Nat) : Bool :=
  b == START || b == ESCAPE || b == STOP

/-- `(!byte) & 0xFF`: the `u8` bitwise complement used both to emit an
escaped literal and to decode the byte following an `ESCAPE`. -/
def complement8 (b : Nat) : Nat :=
  255 ^^^ (b % 256)

/-- `ShprotoPacket::add_byte`: update the CRC with the logical byte, then
push it (escaped as `[ESCAPE, !byte]` if it is a control byte).  The first
component is the mutated packet (the CRC update survives a push
failure, as it does through `&mut self` in the source). -/
def add_byte (p : ShprotoPacket) (byte : Nat) : ShprotoPacket × Option ShprotoError :=
  let p1 : ShprotoPacket := { p with crc := crc16Step p.crc byte }
  if needEscape byte then
    match push p1 ESCAPE with
    | none => (p1, some ShprotoError.PushFailed)
    | some p2 =>
      match push p2 (complement8 byte) with
      | none => (p2, some ShprotoError.PushFailed)
      | some p3 => (p3, none)
  else
    match push p1 byte with
    | none => (p1, some ShprotoError.PushFailed)
    | some p2 => (p2, none)

/-- `ShprotoPacket::start`: delegates to `add_byte`. -/
def start (p : ShprotoPacket) (command : Nat) : ShprotoPacket × Option ShprotoError :=
  add_byte p command

/-- `ShprotoPacket::complete`: appends the two little-endian CRC bytes of
the current CRC through `add_byte`, pushes a literal `STOP`, marks the
packet completed and sets `valid` when the running CRC reached zero.
Every fallible step is `.unwrap()`ed in the source, so `none` models a
panic. -/
def complete (p : ShprotoPacket) : Option ShprotoPacket :=
  let lo := p.crc % 256
  let hi := p.crc / 256 % 256
  match add_byte p lo with
  | (_, some _) => none
  | (p1, none) =>
    match add_byte p1 hi with
    | (_, some _) => none
    | (p2, none) =>
      match push p2 STOP with
      | none => none
      | some p3 =>
        some { p3 with completed := true, valid := if p3.crc = 0 then true else p3.valid }

/-- `ShprotoParserState` (all six variants of the source, `Stop` included
even though nothing ever enters it). -/
inductive ParserState where
  | Start
  | Data
  | EscapedData
  | CrcLow
  | CrcHigh
  | Stop
deriving DecidableEq

/-- `ShprotoParser<N>`: current state plus the in-progress packet (which
carries the capacity `N`). -/
structure ShprotoParser where
  state : ParserState
  packet : ShprotoPacket
deriving DecidableEq

/-- `ShprotoParser::new()` for a capacity `N ≥ 2` (for smaller `N` the
inner `ShprotoPacket::new()` would panic). -/
def mkParser (N : Nat) : ShprotoParser :=
  ⟨ParserState.Start, mkPacket N⟩

/-- `ShprotoParser::parse_byte`: returns the mutated parser together with
`Result<Option<ShprotoPacket>, ShprotoError>`. -/
def parse_byte (pr : ShprotoParser) (byte : Nat) :
    ShprotoParser × Except ShprotoError (Option ShprotoPacket) :=
  match pr.state with
  | ParserState.Start =>
    if byte = START then
      (⟨ParserState.Data, mkPacket pr.packet.capacity⟩, Except.ok none)
    else
      (pr, Except.ok none)
  | ParserState.Data =>
    if byte = START then
      (⟨ParserState.Data, mkPacket pr.packet.capacity⟩, Except.ok none)
    else if byte = ESCAPE then
      (⟨ParserState.EscapedData, pr.packet⟩, Except.ok none)
    else if byte = STOP then
      (⟨ParserState.CrcLow, pr.packet⟩, Except.ok none)
    else
      match add_byte pr.packet byte with
      | (p, some e) => (⟨ParserState.Data, p⟩, Except.error e)
      | (p, none) => (⟨ParserState.Data, p⟩, Except.ok none)
  | ParserState.EscapedData =>
    match add_byte pr.packet (complement8 byte) with
    | (p, some e) => (⟨ParserState.EscapedData, p⟩, Except.error e)
    | (p, none) => (⟨ParserState.Data, p⟩, Except.ok none)
  | ParserState.CrcLow =>
    match add_byte pr.packet byte with
    | (p, some e) => (⟨ParserState.CrcLow, p⟩, Except.error e)
    | (p, none) => (⟨ParserState.CrcHigh, p⟩, Except.ok none)
  | ParserState.CrcHigh =>
    (⟨ParserState.Start, mkPacket pr.packet.capacity⟩,
      Except.ok (some
        { pr.packet with completed := true, valid := pr.packet.crc == 0 }))
  | ParserState.Stop => (pr, Except.ok none)

/-- Drive the parser over a byte list one byte at a time, collecting the
emitted packets; stops at the first error (the test harness in the source
`.unwrap()`s every call). -/
def feedList (pr : ShprotoParser) (bytes : List Nat) :
    ShprotoParser × Except ShprotoError (List ShprotoPacket) :=
  match bytes with
  | [] => (pr, Except.ok [])
  | b :: rest =>
    match parse_byte pr b with
    | (pr1, Except.error e) => (pr1, Except.error e)
    | (pr1, Except.ok out) =>
      match feedList pr1 rest with
      | (pr2, Except.error e) => (pr2, Except.error e)
      | (pr2, Except.ok outs) => (pr2, Except.ok (out.toList ++ outs))

/-- Append a list of payload bytes through `add_byte`, stopping at the
first error (callers in the source `?`/`unwrap` each call). -/
def addAll (p : ShprotoPacket) (bytes : List Nat) : ShprotoPacket × Option ShprotoError :=
  match bytes with
  | [] => (p, none)
  | b :: rest =>
    match add_byte p b with
    | (p1, some e) => (p1, some e)
    | (p1, none) => addAll p1 rest

/-- Packet states reachable through the public operations: construction
(`ShprotoPacket::new`), the protected append path (`start`/`add_byte`,
keeping the mutated state even when the append failed), sealing
(`complete`), and the packet the parser emits in its `CrcHigh` state. -/
inductive ReachablePacket : ShprotoPacket → Prop where
  | new (N : Nat) (p : ShprotoPacket) : newPacket N = some p → ReachablePacket p
  | add (p : ShprotoPacket) (b : Nat) :
      ReachablePacket p → ReachablePacket (add_byte p b).1
  | done (p p2 : ShprotoPacket) :
      ReachablePacket p → complete p = some p2 → ReachablePacket p2
  | emit (p : ShprotoPacket) :
      ReachablePacket p →
      ReachablePacket { p with completed := true, valid := p.crc == 0 }

/-! ### CRC facts -/

theorem xor_xor_cancel (x y c : Nat) : (x ^^^ c) ^^^ (y ^^^ c) = x ^^^ y := by
  rw [Nat.xor_assoc, Nat.xor_comm y c, ← Nat.xor_assoc c c y, Nat.xor_self, Nat.zero_xor]

theorem crcRound_xor (a b : Nat) : crcRound (a ^^^ b) = crcRound a ^^^ crcRound b := by
  have hdiv : (a ^^^ b) / 2 = a / 2 ^^^ b / 2 := Nat.xor_div_two
  have hmod := Nat.xor_mod_two_eq_one (a := a) (b := b)
  rcases Nat.mod_two_eq_zero_or_one a with ha | ha <;>
    rcases Nat.mod_two_eq_zero_or_one b with hb | hb
  · have h0 : (a ^^^ b) % 2 = 0 := by
      have hne : ¬ (a ^^^ b) % 2 = 1 := by rw [hmod]; simp [ha, hb]
      omega
    have r1 : crcRound (a ^^^ b) = a / 2 ^^^ b / 2 := by simp [crcRound, h0, hdiv]
    have r2 : crcRound a = a / 2 := by simp [crcRound, ha]
    have r3 : crcRound b = b / 2 := by simp [crcRound, hb]
    rw [r1, r2, r3]
  · have h1 : (a ^^^ b) % 2 = 1 := by rw [hmod]; simp [ha, hb]
    have r1 : crcRound (a ^^^ b) = (a / 2 ^^^ b / 2) ^^^ 0xA001 := by
      simp [crcRound, h1, hdiv]
    have r2 : crcRound a = a / 2 := by simp [crcRound, ha]
    have r3 : crcRound b = b / 2 ^^^ 0xA001 := by simp [crcRound, hb]
    rw [r1, r2, r3, Nat.xor_assoc]
  · have h1 : (a ^^^ b) % 2 = 1 := by rw [hmod]; simp [ha, hb]
    have r1 : crcRound (a ^^^ b) = (a / 2 ^^^ b / 2) ^^^ 0xA001 := by
      simp [crcRound, h1, hdiv]
    have r2 : crcRound a = a / 2 ^^^ 0xA001 := by simp [crcRound, ha]
    have r3 : crcRound b = b / 2 := by simp [crcRound, hb]
    rw [r1, r2, r3, Nat.xor_assoc, Nat.xor_comm (b / 2) 0xA001, ← Nat.xor_assoc]
  · have h0 : (a ^^^ b) % 2 = 0 := by
      have hne : ¬ (a ^^^ b) % 2 = 1 := by rw [hmod]; simp [ha, hb]
      omega
    have r1 : crcRound (a ^^^ b) = a / 2 ^^^ b / 2 := by simp [crcRound, h0, hdiv]
    have r2 : crcRound a = a / 2 ^^^ 0xA001 := by simp [crcRound, ha]
    have r3 : crcRound b = b / 2 ^^^ 0xA001 := by simp [crcRound, hb]
    rw [r1, r2, r3, xor_xor_cancel]

theorem crc8_xor (a b : Nat) : crc8 (a ^^^ b) = crc8 a ^^^ crc8 b := by
  simp only [crc8, crcRound_xor]

theorem crcRound_even (x : Nat) : crcRound (2 * x) = x := by
  have h : (2 * x) % 2 = 0 := Nat.mul_mod_right 2 x
  simp [crcRound, h, Nat.mul_div_cancel_left x (by norm_num : (0:Nat) < 2)]

theorem crc8_mul256 (q : Nat) : crc8 (256 * q) = q := by
  simp only [crc8]
  rw [show (256:Nat) * q = 2 * (128 * q) by ring, crcRound_even,
      show (128:Nat) * q = 2 * (64 * q) by ring, crcRound_even,
      show (64:Nat) * q = 2 * (32 * q) by ring, crcRound_even,
      show (32:Nat) * q = 2 * (16 * q) by ring, crcRound_even,
      show (16:Nat) * q = 2 * (8 * q) by ring, crcRound_even,
      show (8:Nat) * q = 2 * (4 * q) by ring, crcRound_even,
      show (4:Nat) * q = 2 * (2 * q) by ring, crcRound_even,
      crcRound_even]

theorem mul256_xor_add (q r : Nat) (hr : r < 256) : 256 * q ^^^ r = 256 * q + r := by
  have hr8 : r < 2 ^ 8 := by simpa using hr
  have h256 : (256 : Nat) = 2 ^ 8 := by norm_num
  apply Nat.eq_of_testBit_eq
  intro i
  rw [Nat.testBit_xor, h256, Nat.testBit_mul_pow_two_add q hr8 i, Nat.testBit_mul_pow_two]
  by_cases hi : i < 8
  · have h8 : ¬ i ≥ 8 := Nat.not_le_of_lt hi
    simp [hi, h8]
  · have h8 : i ≥ 8 := Nat.le_of_not_lt hi
    have hri : r < 2 ^ i :=
      lt_of_lt_of_le hr8 (Nat.pow_le_pow_right (by norm_num) (by omega))
    simp [hi, h8, Nat.testBit_lt_two_pow hri]

theorem crc16Step_low (c : Nat) : crc16Step c (c % 256) = c / 256 := by
  have hmod : c % 256 < 256 := Nat.mod_lt _ (by norm_num)
  have hx : c ^^^ c % 256 = 256 * (c / 256) := by
    have h1 : c ^^^ c % 256 = (256 * (c / 256) + c % 256) ^^^ c % 256 := by
      rw [Nat.div_add_mod]
    rw [h1, ← mul256_xor_add (c / 256) (c % 256) hmod, Nat.xor_assoc, Nat.xor_self,
      Nat.xor_zero]
  rw [crc16Step, hx, crc8_mul256]

theorem crc8_zero : crc8 0 = 0 := rfl

theorem crc_selfcheck (c : Nat) (hc : c < 65536) :
    crc16Step (crc16Step c (c % 256)) (c / 256 % 256) = 0 := by
  have hq : c / 256 % 256 = c / 256 := Nat.mod_eq_of_lt (by omega)
  rw [crc16Step_low, hq, crc16Step, Nat.xor_self, crc8_zero]

theorem lt65536_xor (a b : Nat) (ha : a < 65536) (hb : b < 65536) : a ^^^ b < 65536 := by
  have h : (65536 : Nat) = 2 ^ 16 := by norm_num
  rw [h] at ha hb ⊢
  exact Nat.xor_lt_two_pow ha hb

theorem crcRound_lt (x : Nat) (hx : x < 65536) : crcRound x < 65536 := by
  unfold crcRound
  split
  · exact lt65536_xor _ _ (by omega) (by norm_num)
  · omega

theorem crc8_lt (x : Nat) (hx : x < 65536) : crc8 x < 65536 :=
  crcRound_lt _ (crcRound_lt _ (crcRound_lt _ (crcRound_lt _ (crcRound_lt _
    (crcRound_lt _ (crcRound_lt _ (crcRound_lt _ hx)))))))

theorem crc16Step_lt (c b : Nat) (hc : c < 65536) (hb : b < 256) :
    crc16Step c b < 65536 :=
  crc8_lt _ (lt65536_xor _ _ hc (by omega))

/-! ### Packet operation lemmas -/

theorem push_some (p : ShprotoPacket) (b : Nat) (p2 : ShprotoPacket)
    (h : push p b = some p2) : p2 = { p with data := p.data ++ [b] } := by
  unfold push at h
  split at h
  · exact (Option.some.inj h).symm
  · simp at h

theorem add_byte_fst_fields (p : ShprotoPacket) (b : Nat) :
    (add_byte p b).1.crc = crc16Step p.crc b ∧
    (add_byte p b).1.capacity = p.capacity ∧
    (add_byte p b).1.completed = p.completed ∧
    (add_byte p b).1.valid = p.valid := by
  by_cases hesc : needEscape b
  · by_cases h1 : p.data.length < p.capacity
    · by_cases h2 : p.data.length + 1 < p.capacity
      · simp [add_byte, push, hesc, h1, h2]
      · simp [add_byte, push, hesc, h1, h2]
    · simp [add_byte, push, hesc, h1]
  · by_cases h1 : p.data.length < p.capacity
    · simp [add_byte, push, hesc, h1]
    · simp [add_byte, push, hesc, h1]

theorem add_byte_plain_ok (p : ShprotoPacket) (b : Nat) (hesc : needEscape b = false)
    (hlen : p.data.length < p.capacity) :
    add_byte p b = ({ p with crc := crc16Step p.crc b, data := p.data ++ [b] }, none) := by
  simp [add_byte, push, hesc, hlen]

theorem add_byte_plain_fail (p : ShprotoPacket) (b : Nat) (hesc : needEscape b = false)
    (hlen : ¬ p.data.length < p.capacity) :
    add_byte p b = ({ p with crc := crc16Step p.crc b }, some ShprotoError.PushFailed) := by
  simp [add_byte, push, hesc, hlen]

theorem add_byte_esc_ok (p : ShprotoPacket) (b : Nat) (hesc : needEscape b = true)
    (hroom : p.data.length + 2 ≤ p.capacity) :
    add_byte p b =
      ({ p with crc := crc16Step p.crc b, data := p.data ++ [ESCAPE, complement8 b] }, none) := by
  have hl1 : p.data.length < p.capacity := by omega
  have hl2 : p.data.length + 1 < p.capacity := by omega
  simp [add_byte, push, hesc, hl1, hl2]

theorem newPacket_eq (N : Nat) (hN : 2 ≤ N) : newPacket N = some (mkPacket N) := by
  obtain ⟨m, rfl⟩ : ∃ m, N = m + 2 := ⟨N - 2, by omega⟩
  have h1 : ([] : List Nat).length < m + 2 := by simp
  have h2 : ([(0xFF : Nat)]).length < m + 2 := by simp
  simp [newPacket, push, h1, h2, mkPacket]

theorem newPacket_none (N : Nat) (hN : N < 2) : newPacket N = none := by
  interval_cases N <;> rfl

theorem newPacket_some (N : Nat) (p : ShprotoPacket) (h : newPacket N = some p) :
    p = mkPacket N := by
  by_cases hN : 2 ≤ N
  · rw [newPacket_eq N hN] at h
    exact (Option.some.inj h).symm
  · rw [newPacket_none N (by omega)] at h
    cases h

theorem addAll_crc (bytes : List Nat) : ∀ p : ShprotoPacket, (∀ b ∈ bytes, b < 256) →
    p.crc < 65536 → (addAll p bytes).1.crc < 65536 := by
  induction bytes with
  | nil => intro p _ hc; exact hc
  | cons b rest ih =>
    intro p hb hc
    have hb0 : b < 256 := hb b (by simp)
    have hcrc : (add_byte p b).1.crc < 65536 :=
      (add_byte_fst_fields p b).1 ▸ crc16Step_lt _ _ hc hb0
    rcases hA : add_byte p b with ⟨p1, e1⟩
    have hp1 : p1.crc < 65536 := by rw [hA] at hcrc; exact hcrc
    cases e1 with
    | some e => simpa [addAll, hA] using hp1
    | none =>
      have := ih p1 (fun x hx => hb x (by simp [hx])) hp1
      simpa [addAll, hA] using this

theorem complete_some (p pc : ShprotoPacket) (hc : p.crc < 65536)
    (h : complete p = some pc) :
    pc.crc = 0 ∧ pc.valid = true ∧ pc.completed = true := by
  simp only [complete] at h
  split at h
  · cases h
  · rename_i p1 heq1
    split at h
    · cases h
    · rename_i p2 heq2
      split at h
      · cases h
      · rename_i p3 heq3
        have hp1 : p1.crc = crc16Step p.crc (p.crc % 256) := by
          have hf := (add_byte_fst_fields p (p.crc % 256)).1
          rw [heq1] at hf
          exact hf
        have hp2 : p2.crc = 0 := by
          have hf := (add_byte_fst_fields p1 (p.crc / 256 % 256)).1
          rw [heq2] at hf
          rw [hf, hp1, crc_selfcheck p.crc hc]
        have hp3 : p3 = { p2 with data := p2.data ++ [STOP] } := push_some p2 STOP p3 heq3
        have hp3crc : p3.crc = 0 := by rw [hp3]; exact hp2
        have hpc : { p3 with completed := true, valid := if p3.crc = 0 then true else p3.valid } = pc :=
          Option.some.inj h
        rw [← hpc]
        simp [hp3crc]

theorem add_byte_eq_fields (p : ShprotoPacket) (b : Nat) (p2 : ShprotoPacket)
    (e : Option ShprotoError) (h : add_byte p b = (p2, e)) :
    p2.crc = crc16Step p.crc b ∧ p2.capacity = p.capacity ∧
    p2.completed = p.completed ∧ p2.valid = p.valid := by
  have hf := add_byte_fst_fields p b
  rw [h] at hf
  exact hf

theorem add_byte_err_iff (p : ShprotoPacket) (b : Nat) :
    (add_byte p b).2 = some ShprotoError.PushFailed ↔
      p.capacity < p.data.length + (if needEscape b then 2 else 1) := by
  by_cases hesc : needEscape b
  · by_cases h1 : p.data.length < p.capacity
    · by_cases h2 : p.data.length + 1 < p.capacity
      all_goals simp [add_byte, push, hesc, h1, h2]
      all_goals omega
    · simp [add_byte, push, hesc, h1]
      omega
  · by_cases h1 : p.data.length < p.capacity
    all_goals simp [add_byte, push, hesc, h1]
    all_goals omega

/-! ### Parser transition lemmas -/

theorem parse_byte_start_on_START (pr : ShprotoParser) (hst : pr.state = ParserState.Start) :
    parse_byte pr START =
      (⟨ParserState.Data, mkPacket pr.packet.capacity⟩, Except.ok none) := by
  obtain ⟨st, pk⟩ := pr
  dsimp only at hst ⊢
  subst hst
  simp [parse_byte]

theorem parse_byte_data_on_START (pr : ShprotoParser) (hst : pr.state = ParserState.Data) :
    parse_byte pr START =
      (⟨ParserState.Data, mkPacket pr.packet.capacity⟩, Except.ok none) := by
  obtain ⟨st, pk⟩ := pr
  dsimp only at hst ⊢
  subst hst
  simp [parse_byte]

theorem parse_byte_data_plain_ok (pr : ShprotoParser) (b : Nat)
    (hst : pr.state = ParserState.Data) (h1 : b ≠ START) (h2 : b ≠ ESCAPE) (h3 : b ≠ STOP)
    (p2 : ShprotoPacket) (hA : add_byte pr.packet b = (p2, none)) :
    parse_byte pr b = (⟨ParserState.Data, p2⟩, Except.ok none) := by
  obtain ⟨st, pk⟩ := pr
  dsimp only at hst hA ⊢
  subst hst
  simp [parse_byte, h1, h2, h3, hA]

theorem parse_byte_data_plain_err (pr : ShprotoParser) (b : Nat)
    (hst : pr.state = ParserState.Data) (h1 : b ≠ START) (h2 : b ≠ ESCAPE) (h3 : b ≠ STOP)
    (p2 : ShprotoPacket) (e : ShprotoError) (hA : add_byte pr.packet b = (p2, some e)) :
    parse_byte pr b = (⟨ParserState.Data, p2⟩, Except.error e) := by
  obtain ⟨st, pk⟩ := pr
  dsimp only at hst hA ⊢
  subst hst
  simp [parse_byte, h1, h2, h3, hA]

theorem parse_byte_escaped_err (pr : ShprotoParser) (b : Nat)
    (hst : pr.state = ParserState.EscapedData)
    (p2 : ShprotoPacket) (e : ShprotoError)
    (hA : add_byte pr.packet (complement8 b) = (p2, some e)) :
    parse_byte pr b = (⟨ParserState.EscapedData, p2⟩, Except.error e) := by
  obtain ⟨st, pk⟩ := pr
  dsimp only at hst hA ⊢
  subst hst
  simp [parse_byte, hA]

theorem parse_byte_crclow_err (pr : ShprotoParser) (b : Nat)
    (hst : pr.state = ParserState.CrcLow)
    (p2 : ShprotoPacket) (e : ShprotoError)
    (hA : add_byte pr.packet b = (p2, some e)) :
    parse_byte pr b = (⟨ParserState.CrcLow, p2⟩, Except.error e) := by
  obtain ⟨st, pk⟩ := pr
  dsimp only at hst hA ⊢
  subst hst
  simp [parse_byte, hA]

/-! ### Feeding runs of plain bytes: capacity accounting -/

theorem feedList_cons (pr : ShprotoParser) (b : Nat) (bytes : List Nat) :
    feedList pr (b :: bytes) =
      match parse_byte pr b with
      | (pr1, Except.error e) => (pr1, Except.error e)
      | (pr1, Except.ok out) =>
        match feedList pr1 bytes with
        | (pr2, Except.error e) => (pr2, Except.error e)
        | (pr2, Except.ok outs) => (pr2, Except.ok (out.toList ++ outs)) := rfl

theorem feedList_zeros (k : Nat) : ∀ pr : ShprotoParser, pr.state = ParserState.Data →
    pr.packet.data.length + k ≤ pr.packet.capacity →
    (feedList pr (List.replicate k 0)).2 = Except.ok [] ∧
    (feedList pr (List.replicate k 0)).1.state = ParserState.Data ∧
    (feedList pr (List.replicate k 0)).1.packet.data.length = pr.packet.data.length + k ∧
    (feedList pr (List.replicate k 0)).1.packet.capacity = pr.packet.capacity := by
  induction k with
  | zero =>
    intro pr hst _
    simp [feedList, hst]
  | succ k ih =>
    intro pr hst hlen
    have hlt : pr.packet.data.length < pr.packet.capacity := by omega
    have hA : add_byte pr.packet 0 =
        ({ pr.packet with crc := crc16Step pr.packet.crc 0, data := pr.packet.data ++ [0] }, none) :=
      add_byte_plain_ok _ _ rfl hlt
    have hP : parse_byte pr 0 =
        (⟨ParserState.Data, { pr.packet with crc := crc16Step pr.packet.crc 0, data := pr.packet.data ++ [0] }⟩, Except.ok none) :=
      parse_byte_data_plain_ok pr 0 hst (by decide) (by decide) (by decide) _ hA
    have hih := ih ⟨ParserState.Data, { pr.packet with crc := crc16Step pr.packet.crc 0, data := pr.packet.data ++ [0] }⟩ rfl (by simp; omega)
    rcases hF : feedList ⟨ParserState.Data, { pr.packet with crc := crc16Step pr.packet.crc 0, data := pr.packet.data ++ [0] }⟩ (List.replicate k 0) with ⟨pr2, r⟩
    rw [hF] at hih
    dsimp only at hih
    obtain ⟨hr, hst2, hlen2, hcap2⟩ := hih
    rw [List.replicate_succ, feedList_cons, hP]
    dsimp only
    rw [hF, hr]
    dsimp only
    refine ⟨by simp, hst2, ?_, by simpa using hcap2⟩
    simp only [List.length_append, List.length_cons, List.length_nil] at hlen2
    simp [hlen2]
    omega

theorem feedList_zeros_fail (k : Nat) : ∀ pr : ShprotoParser, pr.state = ParserState.Data →
    pr.packet.data.length + k = pr.packet.capacity →
    (feedList pr (List.replicate (k + 1) 0)).2 = Except.error ShprotoError.PushFailed := by
  induction k with
  | zero =>
    intro pr hst hlen
    have hA : add_byte pr.packet 0 =
        ({ pr.packet with crc := crc16Step pr.packet.crc 0 }, some ShprotoError.PushFailed) :=
      add_byte_plain_fail _ _ rfl (by omega)
    have hP : parse_byte pr 0 =
        (⟨ParserState.Data, { pr.packet with crc := crc16Step pr.packet.crc 0 }⟩,
          Except.error ShprotoError.PushFailed) :=
      parse_byte_data_plain_err pr 0 hst (by decide) (by decide) (by decide) _ _ hA
    simp [feedList, hP]
  | succ k ih =>
    intro pr hst hlen
    have hlt : pr.packet.data.length < pr.packet.capacity := by omega
    have hA : add_byte pr.packet 0 =
        ({ pr.packet with crc := crc16Step pr.packet.crc 0, data := pr.packet.data ++ [0] }, none) :=
      add_byte_plain_ok _ _ rfl hlt
    have hP : parse_byte pr 0 =
        (⟨ParserState.Data, { pr.packet with crc := crc16Step pr.packet.crc 0, data := pr.packet.data ++ [0] }⟩, Except.ok none) :=
      parse_byte_data_plain_ok pr 0 hst (by decide) (by decide) (by decide) _ hA
    have hih := ih ⟨ParserState.Data, { pr.packet with crc := crc16Step pr.packet.crc 0, data := pr.packet.data ++ [0] }⟩ rfl (by simp; omega)
    rcases hF : feedList ⟨ParserState.Data, { pr.packet with crc := crc16Step pr.packet.crc 0, data := pr.packet.data ++ [0] }⟩ (List.replicate (k + 1) 0) with ⟨pr2, r⟩
    rw [hF] at hih
    have hr : r = Except.error ShprotoError.PushFailed := hih
    rw [List.replicate_succ, feedList_cons, hP]
    dsimp only
    rw [hF, hr]

theorem complete_some_completed (p p2 : ShprotoPacket) (h : complete p = some p2) :
    p2.completed = true := by
  simp only [complete] at h
  split at h
  · cases h
  · split at h
    · cases h
    · split at h
      · cases h
      · rw [← Option.some.inj h]

/-! ### Claims -/

/-- C1: the claim states that a STOP byte received in the `Data` state
seals the current frame, emits it from the same call, and returns the
parser to `Start`.  The code instead moves to `CrcLow` and emits nothing,
waiting for two further bytes after STOP: feeding `START, 0x03, STOP`
emits no frame and leaves the parser in `CrcLow`. -/
theorem C1_stop_does_not_emit :
    (feedList (mkParser 256) [0xFE, 0x03, 0xA5]).2 = Except.ok [] ∧
    (feedList (mkParser 256) [0xFE, 0x03, 0xA5]).1.state = ParserState.CrcLow :=
  ⟨rfl, rfl⟩

/-- C2 counterexample: feeding `[0xFF,0xFE,0x03,0x00,0x01,0x40,0xA5]` one
byte at a time into a fresh parser of capacity 256 (≥ 7) emits no
completed frame at all, refuting the claimed single valid frame. -/
theorem C2_counterexample :
    (feedList (mkParser 256) [0xFF, 0xFE, 0x03, 0x00, 0x01, 0x40, 0xA5]).2 =
      Except.ok [] := rfl

/-- C2 (amended): feeding `[0xFF,0xFE,0x03,0x00,0x01,0x40,0xA5]` one byte
at a time into a fresh parser of capacity 256 yields no completed frame
and no error; after the STOP byte the parser sits in `CrcLow`, waiting
for two post-STOP CRC bytes. -/
theorem C2_no_frame_emitted :
    (feedList (mkParser 256) [0xFF, 0xFE, 0x03, 0x00, 0x01, 0x40, 0xA5]).2 =
      Except.ok [] ∧
    (feedList (mkParser 256) [0xFF, 0xFE, 0x03, 0x00, 0x01, 0x40, 0xA5]).1.state =
      ParserState.CrcLow :=
  ⟨rfl, rfl⟩

/-- C3: for every command byte and payload appended through `start` and
`add_byte` without a capacity failure, if `complete()` runs to the end
(no panic) the running CRC is exactly 0 and `valid` is true. -/
theorem C3_builder_crc_selfcheck (N cmd : Nat) (payload : List Nat)
    (p0 p1 pb pc : ShprotoPacket)
    (hcmd : cmd < 256) (hpay : ∀ b ∈ payload, b < 256)
    (h0 : newPacket N = some p0)
    (h1 : start p0 cmd = (p1, none))
    (h2 : addAll p1 payload = (pb, none))
    (h3 : complete pb = some pc) :
    pc.crc = 0 ∧ pc.valid = true := by
  have hp0 : p0 = mkPacket N := newPacket_some N p0 h0
  have hcrc0 : p0.crc = 0xFFFF := by rw [hp0]; rfl
  have hcrc1 : p1.crc = crc16Step p0.crc cmd := (add_byte_eq_fields p0 cmd p1 none h1).1
  have hlt1 : p1.crc < 65536 := by
    rw [hcrc1, hcrc0]
    exact crc16Step_lt _ _ (by norm_num) hcmd
  have hltb : pb.crc < 65536 := by
    have hall := addAll_crc payload p1 hpay hlt1
    rw [h2] at hall
    exact hall
  have hfin := complete_some pb pc hltb h3
  exact ⟨hfin.1, hfin.2.1⟩

/-- Witness for C3 at command `0x03`, payload `[0x99]`, capacity 256. -/
theorem C3_witness :
    ((complete (addAll (start (mkPacket 256) 0x03).1 [0x99]).1).getD (mkPacket 0)).crc = 0 ∧
    ((complete (addAll (start (mkPacket 256) 0x03).1 [0x99]).1).getD (mkPacket 0)).valid = true :=
  C3_builder_crc_selfcheck 256 0x03 [0x99] (mkPacket 256) (start (mkPacket 256) 0x03).1
    (addAll (start (mkPacket 256) 0x03).1 [0x99]).1
    ((complete (addAll (start (mkPacket 256) 0x03).1 [0x99]).1).getD (mkPacket 0))
    (by norm_num) (by simp) rfl rfl rfl rfl

/-- C4: for every byte value below 256, the escape path stores a control
byte as the pair `[ESCAPE, (~b) & 0xFF]` and any other byte unchanged,
and the complement used by the unescape path is self-inverse, so
decode-after-encode returns the original byte. -/
theorem C4_escape_roundtrip (b : Nat) (hb : b < 256) (p : ShprotoPacket)
    (hroom : p.data.length + 2 ≤ p.capacity) :
    (add_byte p b).2 = none ∧
    (add_byte p b).1.data =
      p.data ++ (if needEscape b then [ESCAPE, complement8 b] else [b]) ∧
    complement8 (complement8 b) = b := by
  have hinv : complement8 (complement8 b) = b := by
    have hb1 : b % 256 = b := Nat.mod_eq_of_lt hb
    have hlt : 255 ^^^ b < 256 := by
      have h8 : (256 : Nat) = 2 ^ 8 := by norm_num
      rw [h8]
      exact Nat.xor_lt_two_pow (by norm_num) (by omega)
    unfold complement8
    rw [hb1, Nat.mod_eq_of_lt hlt, ← Nat.xor_assoc, Nat.xor_self, Nat.zero_xor]
  by_cases hesc : needEscape b
  · have h := add_byte_esc_ok p b hesc hroom
    rw [h]
    exact ⟨rfl, by simp [hesc], hinv⟩
  · have hesc2 : needEscape b = false := by simpa using hesc
    have hlt2 : p.data.length < p.capacity := by omega
    have h := add_byte_plain_ok p b hesc2 hlt2
    rw [h]
    exact ⟨rfl, by simp [hesc2], hinv⟩

/-- Witness for C4 at the control byte `0xFE` on a fresh packet of
capacity 4. -/
theorem C4_witness :
    (add_byte (mkPacket 4) 0xFE).2 = none ∧
    (add_byte (mkPacket 4) 0xFE).1.data =
      (mkPacket 4).data ++
        (if needEscape 0xFE then [ESCAPE, complement8 0xFE] else [0xFE]) ∧
    complement8 (complement8 0xFE) = 0xFE :=
  C4_escape_roundtrip 0xFE (by norm_num) (mkPacket 4) (by decide)

/-- C5: building command `0x03` with single payload byte `0x99` leaves
the running CRC at 10945 before completion; `complete()` then drives the
CRC to 0, sets `valid`, and emits the wire bytes
`FF FE 03 99 C1 2A A5`. -/
theorem C5_end_to_end :
    newPacket 256 = some (mkPacket 256) ∧
    (start (mkPacket 256) 0x03).2 = none ∧
    (add_byte (start (mkPacket 256) 0x03).1 0x99).2 = none ∧
    (add_byte (start (mkPacket 256) 0x03).1 0x99).1.crc = 10945 ∧
    complete (add_byte (start (mkPacket 256) 0x03).1 0x99).1 =
      some ⟨256, [0xFF, 0xFE, 0x03, 0x99, 0xC1, 0x2A, 0xA5], 0, true, true⟩ :=
  ⟨rfl, rfl, rfl, rfl, rfl⟩

/-- C6 counterexample: the parser's buffer also stores the two preamble
bytes, so with capacity `N = 3` a protected region requiring exactly 3
stored bytes (three plain `0x00` bytes) already fails with the
capacity-exceeded error, refuting the claim that exactly `N` stored bytes
succeed. -/
theorem C6_counterexample :
    (feedList (mkParser 3) [0xFE, 0x00, 0x00, 0x00]).2 =
      Except.error ShprotoError.PushFailed := rfl

/-- C6 (amended): with parser capacity `N ≥ 2`, a protected region
requiring exactly `N - 2` stored bytes succeeds (filling the buffer to
exactly `N`, preamble included), and one requiring `N - 1` stored bytes
fails with the capacity-exceeded error. -/
theorem C6_capacity_boundary (N : Nat) (hN : 2 ≤ N) :
    (feedList (mkParser N) (START :: List.replicate (N - 2) 0)).2 = Except.ok [] ∧
    (feedList (mkParser N) (START :: List.replicate (N - 2) 0)).1.packet.data.length = N ∧
    (feedList (mkParser N) (START :: List.replicate (N - 1) 0)).2 =
      Except.error ShprotoError.PushFailed := by
  have hP : parse_byte (mkParser N) START =
      (⟨ParserState.Data, mkPacket N⟩, Except.ok none) :=
    parse_byte_start_on_START (mkParser N) rfl
  have hz := feedList_zeros (N - 2) ⟨ParserState.Data, mkPacket N⟩ rfl
    (by simp [mkPacket]; omega)
  rcases hF : feedList ⟨ParserState.Data, mkPacket N⟩ (List.replicate (N - 2) 0)
    with ⟨pr2, r⟩
  rw [hF] at hz
  dsimp only at hz
  obtain ⟨hr, hst2, hlen2, hcap2⟩ := hz
  have hfail := feedList_zeros_fail (N - 2) ⟨ParserState.Data, mkPacket N⟩ rfl
    (by simp [mkPacket]; omega)
  have hrep : N - 2 + 1 = N - 1 := by omega
  rw [hrep] at hfail
  rcases hG : feedList ⟨ParserState.Data, mkPacket N⟩ (List.replicate (N - 1) 0)
    with ⟨pr3, r3⟩
  rw [hG] at hfail
  have hr3 : r3 = Except.error ShprotoError.PushFailed := hfail
  refine ⟨?_, ?_, ?_⟩
  · rw [feedList_cons, hP]
    dsimp only
    rw [hF, hr]
    simp
  · rw [feedList_cons, hP]
    dsimp only
    rw [hF, hr]
    dsimp only
    simp [mkPacket] at hlen2
    omega
  · rw [feedList_cons, hP]
    dsimp only
    rw [hG, hr3]

/-- Witness for C6 (amended) at capacity 3. -/
theorem C6_witness :
    (feedList (mkParser 3) (START :: List.replicate (3 - 2) 0)).2 = Except.ok [] ∧
    (feedList (mkParser 3) (START :: List.replicate (3 - 2) 0)).1.packet.data.length = 3 ∧
    (feedList (mkParser 3) (START :: List.replicate (3 - 1) 0)).2 =
      Except.error ShprotoError.PushFailed :=
  C6_capacity_boundary 3 (by norm_num)

/-- C7 counterexample: `complete()` hits a capacity failure after a fully
successful `start` (capacity 3: preamble plus one byte fills the buffer)
and panics (`none`) instead of returning the error value. -/
theorem C7_counterexample :
    (add_byte (mkPacket 3) 0).2 = none ∧
    complete (add_byte (mkPacket 3) 0).1 = none :=
  ⟨rfl, rfl⟩

/-- C7 (amended): capacity failures in `start`/`add_byte` are reported
synchronously by the returned error value (exactly when the appended
byte does not fit), and `parse_byte` forwards such an error to its
caller from each of its three internal append sites — the plain data
byte in `Data`, the unescaped literal in `EscapedData`, and the
post-STOP byte in `CrcLow`; `complete()`, however, panics on a capacity
failure instead of returning it. -/
theorem C7_error_propagation :
    (∀ (p : ShprotoPacket) (b : Nat),
      (add_byte p b).2 = some ShprotoError.PushFailed ↔
        p.capacity < p.data.length + (if needEscape b then 2 else 1)) ∧
    (∀ (pr : ShprotoParser) (b : Nat) (e : ShprotoError),
      pr.state = ParserState.Data → b ≠ START → b ≠ ESCAPE → b ≠ STOP →
      (add_byte pr.packet b).2 = some e → (parse_byte pr b).2 = Except.error e) ∧
    (∀ (pr : ShprotoParser) (b : Nat) (e : ShprotoError),
      pr.state = ParserState.EscapedData →
      (add_byte pr.packet (complement8 b)).2 = some e →
      (parse_byte pr b).2 = Except.error e) ∧
    (∀ (pr : ShprotoParser) (b : Nat) (e : ShprotoError),
      pr.state = ParserState.CrcLow →
      (add_byte pr.packet b).2 = some e → (parse_byte pr b).2 = Except.error e) ∧
    (add_byte (mkPacket 3) 0).2 = none ∧
    complete (add_byte (mkPacket 3) 0).1 = none := by
  refine ⟨add_byte_err_iff, ?_, ?_, ?_, rfl, rfl⟩
  · intro pr b e hst h1 h2 h3 hA
    rcases hE : add_byte pr.packet b with ⟨p2, e2⟩
    rw [hE] at hA
    have he2 : e2 = some e := hA
    rw [he2] at hE
    rw [parse_byte_data_plain_err pr b hst h1 h2 h3 p2 e hE]
  · intro pr b e hst hA
    rcases hE : add_byte pr.packet (complement8 b) with ⟨p2, e2⟩
    rw [hE] at hA
    have he2 : e2 = some e := hA
    rw [he2] at hE
    rw [parse_byte_escaped_err pr b hst p2 e hE]
  · intro pr b e hst hA
    rcases hE : add_byte pr.packet b with ⟨p2, e2⟩
    rw [hE] at hA
    have he2 : e2 = some e := hA
    rw [he2] at hE
    rw [parse_byte_crclow_err pr b hst p2 e hE]

/-- Witness for C7 (amended): a full packet of capacity 2 rejects an
append, and the parser surfaces that failure as an error from all three
of its append sites (`Data`, `EscapedData`, `CrcLow`). -/
theorem C7_witness :
    ((add_byte (mkPacket 2) 0).2 = some ShprotoError.PushFailed ↔
      (mkPacket 2).capacity < (mkPacket 2).data.length +
        (if needEscape 0 then 2 else 1)) ∧
    (parse_byte ⟨ParserState.Data, mkPacket 2⟩ 0).2 =
      Except.error ShprotoError.PushFailed ∧
    (parse_byte ⟨ParserState.EscapedData, mkPacket 2⟩ 0).2 =
      Except.error ShprotoError.PushFailed ∧
    (parse_byte ⟨ParserState.CrcLow, mkPacket 2⟩ 0).2 =
      Except.error ShprotoError.PushFailed :=
  ⟨C7_error_propagation.1 (mkPacket 2) 0,
   C7_error_propagation.2.1 ⟨ParserState.Data, mkPacket 2⟩ 0 ShprotoError.PushFailed rfl
     (by decide) (by decide) (by decide) rfl,
   C7_error_propagation.2.2.1 ⟨ParserState.EscapedData, mkPacket 2⟩ 0
     ShprotoError.PushFailed rfl rfl,
   C7_error_propagation.2.2.2.1 ⟨ParserState.CrcLow, mkPacket 2⟩ 0
     ShprotoError.PushFailed rfl rfl⟩

/-- C8: a STOP byte in the idle `Start` state emits nothing and leaves
the parser unchanged; a spurious START byte in the `Data` state emits
nothing, discards the in-progress frame and begins a fresh empty one. -/
theorem C8_resync (pr : ShprotoParser) :
    (pr.state = ParserState.Start → parse_byte pr STOP = (pr, Except.ok none)) ∧
    (pr.state = ParserState.Data →
      parse_byte pr START =
        (⟨ParserState.Data, mkPacket pr.packet.capacity⟩, Except.ok none)) := by
  constructor
  · intro hst
    obtain ⟨st, pk⟩ := pr
    dsimp only at hst
    subst hst
    simp [parse_byte, STOP, START]
  · intro hst
    exact parse_byte_data_on_START pr hst

/-- Witness for C8 at capacity 2. -/
theorem C8_witness :
    parse_byte (mkParser 2) STOP = (mkParser 2, Except.ok none) ∧
    parse_byte ⟨ParserState.Data, mkPacket 2⟩ START =
      (⟨ParserState.Data, mkPacket 2⟩, Except.ok none) :=
  ⟨(C8_resync (mkParser 2)).1 rfl, (C8_resync ⟨ParserState.Data, mkPacket 2⟩).2 rfl⟩

/-- C9: on every packet state reachable through the public operations,
the `valid` flag is never true unless the `completed` flag is true. -/
theorem C9_valid_implies_completed (p : ShprotoPacket) (h : ReachablePacket p) :
    p.valid = true → p.completed = true := by
  induction h with
  | new N q hq =>
    intro hv
    rw [newPacket_some N q hq] at hv
    simp [mkPacket] at hv
  | add q b hq ih =>
    intro hv
    rw [(add_byte_fst_fields q b).2.2.2] at hv
    rw [(add_byte_fst_fields q b).2.2.1]
    exact ih hv
  | done q q2 hq hc ih =>
    intro _
    exact complete_some_completed q q2 hc
  | emit q hq ih =>
    intro _
    rfl

/-- Witness for C9: the sealed packet built from command `0x03`, payload
`0x99` is reachable, has `valid = true`, and indeed `completed = true`. -/
theorem C9_witness :
    ((complete (add_byte (add_byte (mkPacket 256) 0x03).1 0x99).1).getD (mkPacket 0)).completed = true := by
  have h0 : ReachablePacket (mkPacket 256) := ReachablePacket.new 256 (mkPacket 256) rfl
  have h1 : ReachablePacket (add_byte (mkPacket 256) 0x03).1 :=
    ReachablePacket.add _ 0x03 h0
  have h2 : ReachablePacket (add_byte (add_byte (mkPacket 256) 0x03).1 0x99).1 :=
    ReachablePacket.add _ 0x99 h1
  have h3 : ReachablePacket
      ((complete (add_byte (add_byte (mkPacket 256) 0x03).1 0x99).1).getD (mkPacket 0)) :=
    ReachablePacket.done _ _ h2 rfl
  exact C9_valid_implies_completed _ h3 rfl

/-- C10: `ShprotoPacket::new` pushes the two preamble bytes with
`.unwrap()`: for every capacity `N ≥ 2` it returns the packet
`[0xFF, 0xFE]` with `crc = 0xFFFF` and cleared flags, and for `N < 2`
it panics instead of returning an error. -/
theorem C10_new_unchecked_pushes (N : Nat) :
    (2 ≤ N → newPacket N = some ⟨N, [0xFF, 0xFE], 0xFFFF, false, false⟩) ∧
    (N < 2 → newPacket N = none) :=
  ⟨fun h => newPacket_eq N h, fun h => newPacket_none N h⟩

/-- Witness for C10 at capacities 2 and 1. -/
theorem C10_witness :
    newPacket 2 = some ⟨2, [0xFF, 0xFE], 0xFFFF, false, false⟩ ∧ newPacket 1 = none :=
  ⟨(C10_new_unchecked_pushes 2).1 (by norm_num), (C10_new_unchecked_pushes 1).2 (by norm_num)⟩

end Shproto
